import Mathlib

/-!
Shallow embedding of the retrieval orchestration agent
(backend/src/services/rag/agent.py) and proofs about its behaviour.

Modelling conventions:
- Python float similarity scores and confidences are modelled as rationals.
- Collaborator calls (chat completion, vector search, document store) are
  modelled as oracle fields of an environment record; a call that raises is
  an Except.error value.
- Python dicts keyed by chunk id are modelled as association lists with the
  same update discipline (update in place when the key is present, append
  otherwise), which matches insertion-ordered Python dicts.
-/

namespace Rag

/-- Result row returned by the vector-search collaborator
(services.document_processing.vector_manager.VectorSearchResult).
The chunk payload and content are collapsed into one opaque field. -/
structure VectorSearchResult where
  chunk_id : Int
  score : ℚ
  payload : String
deriving DecidableEq, Repr, Inhabited

/-- Lookup in an association list keyed by chunk id (Python dict read). -/
def alistGet {α : Type} (c : Int) : List (Int × α) → Option α
  | [] => none
  | p :: rest => if p.1 = c then some p.2 else alistGet c rest

/-- Write to an association list keyed by chunk id (Python dict write):
replace in place when present, append otherwise. -/
def alistSet {α : Type} (c : Int) (v : α) : List (Int × α) → List (Int × α)
  | [] => [(c, v)]
  | p :: rest => if p.1 = c then (c, v) :: rest else p :: alistSet c v rest

/-- Keys of an association list, in order. -/
def alistKeys {α : Type} (m : List (Int × α)) : List Int :=
  m.map Prod.fst

/-- The inner loop of the score accumulation in RagAgent._rrf_merge:
for idx, res in enumerate(lst): fused_scores[cid] = get(cid, 0) + 1/(k + idx + 1). -/
def updateScores (k : ℚ) : List (Int × ℚ) → List VectorSearchResult → Nat → List (Int × ℚ)
  | m, [], _ => m
  | m, r :: rest, idx =>
      updateScores k
        (alistSet r.chunk_id ((alistGet r.chunk_id m).getD 0 + 1 / (k + ((idx : ℚ) + 1))) m)
        rest (idx + 1)

/-- One step of the best-instance accumulation in RagAgent._rrf_merge:
keep the stored instance unless the new occurrence has a strictly higher raw score. -/
def updateBestOne (m : List (Int × VectorSearchResult)) (r : VectorSearchResult) :
    List (Int × VectorSearchResult) :=
  match alistGet r.chunk_id m with
  | none => alistSet r.chunk_id r m
  | some b => if b.score < r.score then alistSet r.chunk_id r m else m

/-- The inner loop of the best-instance accumulation over one result list. -/
def updateBest : List (Int × VectorSearchResult) → List VectorSearchResult →
    List (Int × VectorSearchResult)
  | m, [] => m
  | m, r :: rest => updateBest (updateBestOne m r) rest

/-- The fused-score dict of RagAgent._rrf_merge after all result lists are processed. -/
def fusedScoresMap (results_by_query : List (List VectorSearchResult)) (k : ℚ) :
    List (Int × ℚ) :=
  results_by_query.foldl (fun m l => updateScores k m l 0) []

/-- The best-instance dict of RagAgent._rrf_merge after all result lists are processed. -/
def bestMap (results_by_query : List (List VectorSearchResult)) :
    List (Int × VectorSearchResult) :=
  results_by_query.foldl updateBest []

/-- Descending order on fused entries (cid, fused score, best instance):
the sort key of fused.sort(key=lambda x: x[1], reverse=True). -/
def scoreGE (a b : Int × ℚ × VectorSearchResult) : Prop :=
  b.2.1 ≤ a.2.1

instance : DecidableRel scoreGE :=
  fun a b => inferInstanceAs (Decidable (b.2.1 ≤ a.2.1))

instance : IsTotal (Int × ℚ × VectorSearchResult) scoreGE :=
  ⟨fun a b => le_total b.2.1 a.2.1⟩

instance : IsTrans (Int × ℚ × VectorSearchResult) scoreGE :=
  ⟨fun _ _ _ h1 h2 => le_trans h2 h1⟩

/-- RagAgent._rrf_merge: Reciprocal Rank Fusion across multiple query result lists.
Builds the fused-score and best-instance dicts, sorts the fused entries by
descending fused score and truncates to the given limit. -/
def rrf_merge (results_by_query : List (List VectorSearchResult)) (k : ℚ) (limit : Nat) :
    List VectorSearchResult :=
  let fused_scores := fusedScoresMap results_by_query k
  let best := bestMap results_by_query
  let fused := fused_scores.map (fun p => (p.1, p.2, (alistGet p.1 best).getD default))
  ((List.insertionSort scoreGE fused).take limit).map (fun t => t.2.2)

/-- Contribution of the occurrences of a chunk id in one result list, starting
at the 0-based offset idx: each occurrence at 0-based position i contributes
1 / (k + i + 1). -/
def listContrib (k : ℚ) (c : Int) : List VectorSearchResult → Nat → ℚ
  | [], _ => 0
  | r :: rest, idx =>
      (if r.chunk_id = c then 1 / (k + ((idx : ℚ) + 1)) else 0) + listContrib k c rest (idx + 1)

/-- Fused RRF score of a chunk id: sum of its per-list contributions. -/
def fusedScore (results_by_query : List (List VectorSearchResult)) (k : ℚ) (c : Int) : ℚ :=
  (results_by_query.map (fun l => listContrib k c l 0)).sum

/-- 1-based rank of the first occurrence of a chunk id in a result list. -/
def rankOf (c : Int) : List VectorSearchResult → Option Nat
  | [] => none
  | r :: rest => if r.chunk_id = c then some 1 else (rankOf c rest).map (· + 1)

/-- Per-list RRF contribution as the specification states it: 1 / (k + rank)
at the 1-based rank of the chunk in the list, 0 when absent. -/
def specListContrib (k : ℚ) (c : Int) (l : List VectorSearchResult) : ℚ :=
  match rankOf c l with
  | some rk => 1 / (k + (rk : ℚ))
  | none => 0

/-- Python str.lower restricted to the alphabets the keyword cascade uses:
ASCII upper case and Cyrillic upper case letters map to their lower case forms. -/
def pyLowerChar (c : Char) : Char :=
  if 'A' ≤ c ∧ c ≤ 'Z' then Char.ofNat (c.toNat + 32)
  else if 'А' ≤ c ∧ c ≤ 'Я' then Char.ofNat (c.toNat + 32)
  else if c = 'Ё' then 'ё'
  else c

/-- Python str.lower on a whole string. -/
def pyLower (s : String) : String :=
  ⟨s.toList.map pyLowerChar⟩

/-- The whitespace characters stripped by Python str.strip. -/
def pyIsSpace (c : Char) : Bool :=
  c = ' ' || c = '\t' || c = '\n' || c = '\r' || c = '\x0b' || c = '\x0c'

/-- Python str.strip: drop leading and trailing whitespace. -/
def pyStrip (s : String) : String :=
  ⟨((s.toList.dropWhile pyIsSpace).reverse.dropWhile pyIsSpace).reverse⟩

/-- Is the first list a prefix of the second (character lists). -/
def charsPre : List Char → List Char → Bool
  | [], _ => true
  | _ :: _, [] => false
  | a :: as, b :: bs => a = b && charsPre as bs

/-- Does the needle occur as a contiguous substring of the haystack. -/
def charsSub (needle : List Char) : List Char → Bool
  | [] => needle.isEmpty
  | b :: bs => charsPre needle (b :: bs) || charsSub needle bs

/-- Python substring containment: needle in hay. -/
def strHasSub (hay needle : String) : Bool :=
  charsSub needle.toList hay.toList

/-- One turn of chat history, as produced by RagAgent._load_chat_history. -/
structure HistoryTurn where
  role : String
  content : String
deriving DecidableEq, Repr

/-- ScenarioDecision dataclass. -/
structure ScenarioDecision where
  scenario : Int
  confidence : ℚ
  reason : String
  follow_up : Bool
  clarifications : List String
  use_query_expansion : Option Bool
deriving DecidableEq, Repr

/-- The successfully parsed and coerced JSON payload of the orchestration
chat call in RagAgent._choose_scenario: scenario after int(), confidence
after float(), clarifications after str() of each item, use_query_expansion
after the truthy-string normalisation. -/
structure OrchPayload where
  scenario : Int
  confidence : ℚ
  reason : String
  follow_up : Bool
  clarifications : List String
  use_query_expansion : Option Bool
deriving DecidableEq, Repr

/-- The successfully parsed JSON payload of the expansion chat call in
RagAgent._expand_query. -/
structure ExpPayload where
  refinements : List String
  subqueries : List String
  notes : String
deriving DecidableEq, Repr

/-- Kinds of exception crossing the boundaries inside RagAgent.run:
VectorSearchError is caught by the retrieval branches, every other
exception type propagates out of run. -/
inductive AgentErr
  | vectorSearch
  | other
deriving DecidableEq, Repr

/-- A stored document as RagAgent._load_documents sees it; only the content
length matters to the agent logic. -/
structure ParsedDocument where
  content : String
deriving DecidableEq, Repr

/-- Debug values recorded in the query-expansion debug mapping. -/
inductive DebugVal
  | str (v : String)
  | nat (v : Nat)
  | strs (v : List String)
deriving DecidableEq, Repr

/-- AgentResult dataclass (the debug mapping is not modelled). -/
structure AgentResult where
  answer : String
  used_chunks : List VectorSearchResult
  scenario : Int
deriving DecidableEq, Repr

/-- Constructor configuration of RagAgent. -/
structure AgentConfig where
  max_context_chars : Nat
  top_k : Nat
  use_query_expansion : Bool
  rrf_k : ℚ
deriving Repr

/-- RagAgent constructor defaults. -/
def defaultConfig : AgentConfig :=
  ⟨50000, 8, true, 60⟩

/-- Collaborator oracles for one run: chat history, the outcome of the two
structured chat calls (error = the call raised, ok none = the call returned
but its content could not be parsed, ok some = parsed payload), the
vector-search collaborator (query, limit, document id filter), the document
store, and the four answer-synthesis chat calls keyed by the context each
rendering depends on. -/
structure AgentEnv where
  history : List HistoryTurn
  classifyResp : Except Unit (Option OrchPayload)
  expandResp : Except Unit (Option ExpPayload)
  search : String → Nat → Option (List Int) → Except Unit (List VectorSearchResult)
  loadDocs : List Int → List ParsedDocument
  answerFull : List ParsedDocument → Except Unit String
  answerChunks : List VectorSearchResult → Except Unit String
  answerGeneral : Except Unit String
  clarify : List String → Except Unit String

/-- Truthiness of the optional selected_document_ids sequence. -/
def selectedTruthy (s : Option (List Int)) : Bool :=
  match s with
  | none => false
  | some l => decide (0 < l.length)

/-- The search-intent keyword tuple of RagAgent._rule_guess_scenario. -/
def search_keywords : List String :=
  ["найти", "найди", "ищи", "поиск", "где", "какой договор", "какой документ",
   "покажи", "подбери"]

/-- RagAgent._rule_guess_scenario. -/
def rule_guess_scenario (query : String) (history : List HistoryTurn)
    (selected_ids : Option (List Int)) : Int :=
  if selectedTruthy selected_ids then 2
  else
    let q := pyLower query
    if search_keywords.any (fun kw => strHasSub q kw) then 1
    else if history.isEmpty then 3
    else 4

/-- The decision built in the except branch of RagAgent._choose_scenario. -/
def fallbackDecision (rule_guess : Int) : ScenarioDecision :=
  ⟨rule_guess, 0, "rule fallback", false, [], none⟩

/-- The decision built from a successfully parsed orchestration payload:
adopt the model scenario only at confidence at least 0.6, truncate the
clarification list to 3 items. -/
def decisionFromPayload (p : OrchPayload) (rule_guess : Int) : ScenarioDecision :=
  { scenario := if (0.6 : ℚ) ≤ p.confidence then p.scenario else rule_guess
    confidence := p.confidence
    reason := p.reason
    follow_up := p.follow_up
    clarifications := p.clarifications.take 3
    use_query_expansion := p.use_query_expansion }

/-- RagAgent._choose_scenario. The chat call stands before the try block, so
a raising call propagates; only parsing failures reach the except branch. -/
def choose_scenario (query : String) (history : List HistoryTurn)
    (selected_ids : Option (List Int)) (resp : Except Unit (Option OrchPayload)) :
    Except AgentErr ScenarioDecision :=
  let rule_guess := rule_guess_scenario query history selected_ids
  match resp with
  | .error _ => .error .other
  | .ok none => .ok (fallbackDecision rule_guess)
  | .ok (some p) => .ok (decisionFromPayload p rule_guess)

/-- RagAgent._expand_query. The chat call stands before the try block, so a
raising call propagates; only parsing failures yield the empty expansion. -/
def expand_query (resp : Except Unit (Option ExpPayload)) :
    Except AgentErr (List String × List String × String) :=
  match resp with
  | .error _ => .error .other
  | .ok none => .ok ([], [], "")
  | .ok (some p) => .ok (p.refinements, p.subqueries, p.notes)

/-- RagAgent._load_documents length sum: characters of documents with truthy
content. -/
def total_length (docs : List ParsedDocument) : Nat :=
  ((docs.filter (fun d => d.content != "")).map (fun d => d.content.length)).sum

/-- RagAgent._search_chunks: one plain retrieval call with the configured
top_k; any collaborator exception is wrapped into VectorSearchError. -/
def search_chunks (env : AgentEnv) (cfg : AgentConfig) (query : String)
    (document_ids : Option (List Int)) : Except AgentErr (List VectorSearchResult) :=
  match env.search query cfg.top_k document_ids with
  | .error _ => .error .vectorSearch
  | .ok r => .ok r

/-- The per-variant retrieval loop of RagAgent._search_with_expansion: one
call per expansion variant, in order; the first raising call aborts the
whole loop and is wrapped into VectorSearchError. -/
def runSearches (search : String → Nat → Option (List Int) → Except Unit (List VectorSearchResult))
    (qs : List String) (limit : Nat) (document_ids : Option (List Int)) :
    Except AgentErr (List (List VectorSearchResult)) :=
  match qs with
  | [] => .ok []
  | q :: rest =>
    match search q limit document_ids with
    | .error _ => .error .vectorSearch
    | .ok r =>
      match runSearches search rest limit document_ids with
      | .error e => .error e
      | .ok rs => .ok (r :: rs)

/-- The fixed unavailable-service answer of
RagAgent._vector_search_unavailable_message. -/
def vector_search_unavailable_message : String :=
  "Не удалось подключиться к базе векторного поиска документов. " ++
  "Пожалуйста, повторите запрос чуть позже или сообщите администратору, если проблема сохраняется."

/-- RagAgent._search_with_expansion: expand the query, drop blank variants,
fall back to one plain call when no variant is left, otherwise run one
retrieval call per variant with limit max(2, ceil(top_k / variants)) and
fuse the result lists with RRF. -/
def search_with_expansion (cfg : AgentConfig) (env : AgentEnv) (query : String)
    (document_ids : Option (List Int)) :
    Except AgentErr (List VectorSearchResult × List (String × DebugVal)) :=
  match expand_query env.expandResp with
  | .error e => .error e
  | .ok (refinements, subqueries, notes) =>
    let expansions := ([query] ++ refinements ++ subqueries).filter
      (fun e => e != "" && pyStrip e != "")
    if expansions.isEmpty then
      match search_chunks env cfg query document_ids with
      | .error e => .error e
      | .ok plain =>
        .ok (plain, [("expansions", .strs []), ("strategy", .str "plain")])
    else
      let per_query := max 2 ((cfg.top_k + expansions.length - 1) / expansions.length)
      match runSearches env.search expansions per_query document_ids with
      | .error e => .error e
      | .ok results_by_query =>
        let fused := rrf_merge results_by_query cfg.rrf_k cfg.top_k
        .ok (fused, [("expansions", .strs expansions), ("notes", .str notes),
                     ("per_query", .nat per_query), ("merged", .nat fused.length)])

/-- The body of the try blocks of the retrieval scenarios in RagAgent.run:
obtain the chunks (with or without expansion) and synthesise the
chunk-grounded answer. A failing answer call is not a VectorSearchError. -/
def retrieval_branch (cfg : AgentConfig) (env : AgentEnv) (query : String)
    (document_ids : Option (List Int)) (use_qx : Bool) :
    Except AgentErr (List VectorSearchResult × String) :=
  match (if use_qx then (search_with_expansion cfg env query document_ids).map Prod.fst
         else search_chunks env cfg query document_ids) with
  | .error e => .error e
  | .ok used_chunks =>
    match env.answerChunks used_chunks with
    | .error _ => .error .other
    | .ok answer => .ok (used_chunks, answer)

/-- A retrieval scenario of RagAgent.run with its except VectorSearchError
handler: recover with the fixed unavailable message and empty chunks, let
every other exception propagate. -/
def retrieval_with_recovery (cfg : AgentConfig) (env : AgentEnv) (query : String)
    (document_ids : Option (List Int)) (use_qx : Bool) (scenario : Int) :
    Except AgentErr AgentResult :=
  match retrieval_branch cfg env query document_ids use_qx with
  | .ok (chunks, answer) => .ok ⟨answer, chunks, scenario⟩
  | .error .vectorSearch => .ok ⟨vector_search_unavailable_message, [], scenario⟩
  | .error .other => .error .other

/-- RagAgent.run, lines 102 to 156: scenario dispatch. -/
def run (cfg : AgentConfig) (env : AgentEnv) (query : String)
    (selected_document_ids : Option (List Int)) : Except AgentErr AgentResult :=
  match choose_scenario query env.history selected_document_ids env.classifyResp with
  | .error e => .error e
  | .ok decision =>
    let scenario := decision.scenario
    let run_use_query_expansion := decision.use_query_expansion.getD cfg.use_query_expansion
    if scenario = 2 ∧ selectedTruthy selected_document_ids then
      let ids := selected_document_ids.getD []
      let docs := env.loadDocs ids
      if total_length docs ≤ cfg.max_context_chars then
        match env.answerFull docs with
        | .error _ => .error .other
        | .ok answer => .ok ⟨answer, [], scenario⟩
      else
        retrieval_with_recovery cfg env query (some ids) run_use_query_expansion scenario
    else if scenario = 1 then
      retrieval_with_recovery cfg env query none run_use_query_expansion scenario
    else if scenario = 4 then
      match env.answerGeneral with
      | .error _ => .error .other
      | .ok answer => .ok ⟨answer, [], scenario⟩
    else
      match env.clarify decision.clarifications with
      | .error _ => .error .other
      | .ok answer => .ok ⟨answer, [], scenario⟩

/-! ### Association list lemmas -/

theorem alistGet_set_self {α : Type} (c : Int) (v : α) (m : List (Int × α)) :
    alistGet c (alistSet c v m) = some v := by
  induction m with
  | nil => simp [alistGet, alistSet]
  | cons p rest ih =>
    by_cases h : p.1 = c
    · simp [alistSet, h, alistGet]
    · simp [alistSet, h, alistGet, ih]

theorem alistGet_set_ne {α : Type} {c c' : Int} (h : c' ≠ c) (v : α) (m : List (Int × α)) :
    alistGet c' (alistSet c v m) = alistGet c' m := by
  induction m with
  | nil => simp [alistGet, alistSet, Ne.symm h]
  | cons p rest ih =>
    obtain ⟨pk, pv⟩ := p
    by_cases hp : pk = c
    · subst hp
      simp [alistSet, alistGet, Ne.symm h]
    · simp [alistSet, alistGet, hp, ih]

theorem mem_keys_iff_isSome {α : Type} (c : Int) (m : List (Int × α)) :
    c ∈ alistKeys m ↔ (alistGet c m).isSome = true := by
  induction m with
  | nil => simp [alistKeys, alistGet]
  | cons p rest ih =>
    by_cases h : p.1 = c
    · simp [alistKeys, alistGet, h]
    · simpa [alistKeys, alistGet, h, Ne.symm h] using ih

theorem alistKeys_set {α : Type} (c : Int) (v : α) (m : List (Int × α)) :
    alistKeys (alistSet c v m) =
      if c ∈ alistKeys m then alistKeys m else alistKeys m ++ [c] := by
  induction m with
  | nil => simp [alistKeys, alistSet]
  | cons p rest ih =>
    by_cases h : p.1 = c
    · simp [alistSet, h, alistKeys]
    · have h' : ¬c = p.1 := fun he => h he.symm
      simp only [alistSet, if_neg h, alistKeys, List.map_cons]
      rw [show List.map Prod.fst (alistSet c v rest) = alistKeys (alistSet c v rest) from rfl,
        ih]
      by_cases hc : c ∈ List.map Prod.fst rest
      · simp [alistKeys, List.mem_cons, hc, h']
      · simp [alistKeys, List.mem_cons, hc, h']

theorem nodup_keys_set {α : Type} (c : Int) (v : α) {m : List (Int × α)}
    (h : (alistKeys m).Nodup) : (alistKeys (alistSet c v m)).Nodup := by
  rw [alistKeys_set]
  by_cases hc : c ∈ alistKeys m
  · simpa [hc] using h
  · rw [if_neg hc, List.nodup_append]
    exact ⟨h, List.nodup_singleton c,
      fun x hx hxc => hc ((List.mem_singleton.1 hxc) ▸ hx)⟩

theorem mem_alist_get {α : Type} {m : List (Int × α)} (h : (alistKeys m).Nodup)
    {p : Int × α} (hp : p ∈ m) : alistGet p.1 m = some p.2 := by
  induction m with
  | nil => cases hp
  | cons q rest ih =>
    obtain ⟨qk, qv⟩ := q
    have hk : (qk :: List.map Prod.fst rest).Nodup := by
      simpa [alistKeys] using h
    have hnd := List.nodup_cons.1 hk
    rcases List.mem_cons.1 hp with rfl | hmem
    · simp [alistGet]
    · have hne : qk ≠ p.1 := fun he => hnd.1 (he ▸ (List.mem_map).2 ⟨p, hmem, rfl⟩)
      simp [alistGet, hne, ih hnd.2 hmem]

/-! ### Fused score accumulation lemmas -/

theorem listContrib_of_not_mem (k : ℚ) (c : Int) :
    ∀ {l : List VectorSearchResult}, c ∉ l.map VectorSearchResult.chunk_id →
      ∀ idx, listContrib k c l idx = 0 := by
  intro l
  induction l with
  | nil => intro _ idx; simp [listContrib]
  | cons r rest ih =>
    intro h idx
    have hr : r.chunk_id ≠ c := by
      intro he
      exact h (by simp [he])
    have hrest : c ∉ rest.map VectorSearchResult.chunk_id := by
      intro hm
      exact h (by simp [hm])
    simp [listContrib, hr, ih hrest]

theorem alistGet_updateScores (k : ℚ) (c : Int) (l : List VectorSearchResult) :
    ∀ (m : List (Int × ℚ)) (idx : Nat),
      alistGet c (updateScores k m l idx) =
        if c ∈ l.map VectorSearchResult.chunk_id ∨ (alistGet c m).isSome = true
        then some ((alistGet c m).getD 0 + listContrib k c l idx)
        else none := by
  induction l with
  | nil =>
    intro m idx
    cases hm : alistGet c m with
    | none => simp [updateScores, hm, listContrib]
    | some v => simp [updateScores, hm, listContrib]
  | cons r rest ih =>
    intro m idx
    by_cases hr : r.chunk_id = c
    · subst hr
      rw [updateScores, ih, alistGet_set_self]
      simp only [Option.isSome_some, or_true, if_pos, Option.getD_some, List.map_cons,
        List.mem_cons, true_or, listContrib, if_pos rfl]
      rw [add_assoc]
    · have hne : c ≠ r.chunk_id := fun he => hr he.symm
      rw [updateScores, ih, alistGet_set_ne hne]
      simp [listContrib, hr, hne, List.mem_cons]

theorem isSome_updateScores (k : ℚ) (c : Int) (l : List VectorSearchResult)
    (m : List (Int × ℚ)) (idx : Nat) :
    (alistGet c (updateScores k m l idx)).isSome = true ↔
      c ∈ l.map VectorSearchResult.chunk_id ∨ (alistGet c m).isSome = true := by
  rw [alistGet_updateScores]
  by_cases h : c ∈ l.map VectorSearchResult.chunk_id ∨ (alistGet c m).isSome = true
  · simp [h]
  · simp [h]

theorem getD_updateScores (k : ℚ) (c : Int) (l : List VectorSearchResult)
    (m : List (Int × ℚ)) (idx : Nat) :
    (alistGet c (updateScores k m l idx)).getD 0 =
      (alistGet c m).getD 0 + listContrib k c l idx := by
  rw [alistGet_updateScores]
  by_cases h : c ∈ l.map VectorSearchResult.chunk_id ∨ (alistGet c m).isSome = true
  · rw [if_pos h]
    simp
  · push_neg at h
    have h1 : listContrib k c l idx = 0 := listContrib_of_not_mem k c h.1 idx
    have h2 : alistGet c m = none := Option.not_isSome_iff_eq_none.1 (by simpa using h.2)
    simp [h, h1, h2]

theorem nodup_keys_updateScores (k : ℚ) (l : List VectorSearchResult) :
    ∀ (m : List (Int × ℚ)) (idx : Nat), (alistKeys m).Nodup →
      (alistKeys (updateScores k m l idx)).Nodup := by
  induction l with
  | nil => intro m idx h; exact h
  | cons r rest ih =>
    intro m idx h
    rw [updateScores]
    exact ih _ _ (nodup_keys_set _ _ h)

theorem getD_scores_foldl (k : ℚ) (c : Int) :
    ∀ (lists : List (List VectorSearchResult)) (m : List (Int × ℚ)),
      (alistGet c (lists.foldl (fun m l => updateScores k m l 0) m)).getD 0 =
        (alistGet c m).getD 0 + fusedScore lists k c := by
  intro lists
  induction lists with
  | nil => intro m; simp [fusedScore]
  | cons l ls ih =>
    intro m
    rw [List.foldl_cons, ih, getD_updateScores]
    simp [fusedScore, add_assoc]

theorem isSome_scores_foldl (k : ℚ) (c : Int) :
    ∀ (lists : List (List VectorSearchResult)) (m : List (Int × ℚ)),
      (alistGet c (lists.foldl (fun m l => updateScores k m l 0) m)).isSome = true ↔
        (∃ l ∈ lists, c ∈ l.map VectorSearchResult.chunk_id) ∨
          (alistGet c m).isSome = true := by
  intro lists
  induction lists with
  | nil => intro m; simp
  | cons l ls ih =>
    intro m
    rw [List.foldl_cons, ih, isSome_updateScores]
    simp only [List.mem_cons]
    constructor
    · rintro (⟨l', hl', hc⟩ | (hc | hs))
      · exact Or.inl ⟨l', Or.inr hl', hc⟩
      · exact Or.inl ⟨l, Or.inl rfl, hc⟩
      · exact Or.inr hs
    · rintro (⟨l', (rfl | hl'), hc⟩ | hs)
      · exact Or.inr (Or.inl hc)
      · exact Or.inl ⟨l', hl', hc⟩
      · exact Or.inr (Or.inr hs)

theorem nodup_keys_fusedScoresMap (lists : List (List VectorSearchResult)) (k : ℚ) :
    (alistKeys (fusedScoresMap lists k)).Nodup := by
  have step : ∀ (ls : List (List VectorSearchResult)) (m : List (Int × ℚ)),
      (alistKeys m).Nodup →
        (alistKeys (ls.foldl (fun m l => updateScores k m l 0) m)).Nodup := by
    intro ls
    induction ls with
    | nil => intro m h; exact h
    | cons l ls ih =>
      intro m h
      rw [List.foldl_cons]
      exact ih _ (nodup_keys_updateScores k l m 0 h)
  exact step lists [] (by simp [alistKeys])

theorem alistGet_fusedScoresMap (lists : List (List VectorSearchResult)) (k : ℚ) (c : Int) :
    alistGet c (fusedScoresMap lists k) =
      if ∃ l ∈ lists, c ∈ l.map VectorSearchResult.chunk_id
      then some (fusedScore lists k c) else none := by
  by_cases h : ∃ l ∈ lists, c ∈ l.map VectorSearchResult.chunk_id
  · have hs : (alistGet c (fusedScoresMap lists k)).isSome = true :=
      (isSome_scores_foldl k c lists []).2 (Or.inl h)
    obtain ⟨v, hv⟩ := Option.isSome_iff_exists.1 hs
    have hg := getD_scores_foldl k c lists []
    rw [show lists.foldl (fun m l => updateScores k m l 0) [] = fusedScoresMap lists k from rfl,
      hv] at hg
    simp only [alistGet, Option.getD_none, Option.getD_some] at hg
    rw [if_pos h, hv, hg, zero_add]
  · rw [if_neg h]
    refine Option.not_isSome_iff_eq_none.1 (fun hs => ?_)
    rcases (isSome_scores_foldl k c lists []).1 hs with he | hf
    · exact h he
    · simp [alistGet] at hf

/-! ### Best instance accumulation lemmas -/

/-- Invariant of the best-instance dict relative to the occurrences seen so
far: every stored entry is an occurrence with the queried chunk id whose raw
score dominates all seen occurrences of that id, and absent ids have no seen
occurrence. -/
def BestInv (m : List (Int × VectorSearchResult)) (s : List VectorSearchResult) : Prop :=
  (∀ c b, alistGet c m = some b →
      b.chunk_id = c ∧ b ∈ s ∧ ∀ r ∈ s, r.chunk_id = c → r.score ≤ b.score)
  ∧ (∀ c, alistGet c m = none → ∀ r ∈ s, r.chunk_id ≠ c)

theorem bestInv_empty : BestInv [] [] := by
  constructor
  · intro c b hb
    simp [alistGet] at hb
  · intro c _ r hr
    cases hr

theorem bestInv_set {m : List (Int × VectorSearchResult)} {s : List VectorSearchResult}
    (h : BestInv m s) (r : VectorSearchResult)
    (hmax : ∀ r' ∈ s, r'.chunk_id = r.chunk_id → r'.score ≤ r.score) :
    BestInv (alistSet r.chunk_id r m) (s ++ [r]) := by
  obtain ⟨hsome, hnone⟩ := h
  constructor
  · intro c b hb
    by_cases hc : c = r.chunk_id
    · subst hc
      rw [alistGet_set_self] at hb
      cases hb
      refine ⟨rfl, List.mem_append_right _ (List.mem_singleton_self r), fun r' hr' hid => ?_⟩
      rcases List.mem_append.1 hr' with hr's | hr'r
      · exact hmax r' hr's hid
      · obtain rfl := List.mem_singleton.1 hr'r
        exact le_rfl
    · rw [alistGet_set_ne hc] at hb
      obtain ⟨hid, hmem, hmax'⟩ := hsome c b hb
      refine ⟨hid, List.mem_append_left _ hmem, fun r' hr' hid' => ?_⟩
      rcases List.mem_append.1 hr' with hr's | hr'r
      · exact hmax' r' hr's hid'
      · obtain rfl := List.mem_singleton.1 hr'r
        exact absurd hid'.symm hc
  · intro c hc r' hr'
    by_cases hcc : c = r.chunk_id
    · subst hcc
      rw [alistGet_set_self] at hc
      cases hc
    · rw [alistGet_set_ne hcc] at hc
      rcases List.mem_append.1 hr' with hr's | hr'r
      · exact hnone c hc r' hr's
      · obtain rfl := List.mem_singleton.1 hr'r
        exact fun hid => hcc hid.symm

theorem bestInv_step {m : List (Int × VectorSearchResult)} {s : List VectorSearchResult}
    (h : BestInv m s) (r : VectorSearchResult) :
    BestInv (updateBestOne m r) (s ++ [r]) := by
  obtain ⟨hsome, hnone⟩ := h
  unfold updateBestOne
  cases hm : alistGet r.chunk_id m with
  | none =>
    exact bestInv_set ⟨hsome, hnone⟩ r
      (fun r' hr' hid => absurd hid (hnone r.chunk_id hm r' hr'))
  | some b0 =>
    show BestInv (if b0.score < r.score then alistSet r.chunk_id r m else m) (s ++ [r])
    by_cases hcmp : b0.score < r.score
    · rw [if_pos hcmp]
      refine bestInv_set ⟨hsome, hnone⟩ r (fun r' hr' hid => ?_)
      obtain ⟨_, _, hmax0⟩ := hsome _ _ hm
      exact le_of_lt (lt_of_le_of_lt (hmax0 r' hr' hid) hcmp)
    · rw [if_neg hcmp]
      constructor
      · intro c b hb
        obtain ⟨hid, hmem, hmax'⟩ := hsome c b hb
        refine ⟨hid, List.mem_append_left _ hmem, fun r' hr' hid' => ?_⟩
        rcases List.mem_append.1 hr' with hr's | hr'r
        · exact hmax' r' hr's hid'
        · obtain rfl := List.mem_singleton.1 hr'r
          have hbb : b = b0 := by
            rw [← hid'] at hb
            rw [hm] at hb
            cases hb
            rfl
          rw [hbb]
          exact not_lt.1 hcmp
      · intro c hc r' hr'
        rcases List.mem_append.1 hr' with hr's | hr'r
        · exact hnone c hc r' hr's
        · obtain rfl := List.mem_singleton.1 hr'r
          intro hid
          rw [hid] at hm
          rw [hm] at hc
          simp at hc

theorem bestInv_list (l : List VectorSearchResult) :
    ∀ {m : List (Int × VectorSearchResult)} {s : List VectorSearchResult},
      BestInv m s → BestInv (updateBest m l) (s ++ l) := by
  induction l with
  | nil =>
    intro m s h
    simpa [updateBest] using h
  | cons r rest ih =>
    intro m s h
    rw [updateBest]
    have := ih (bestInv_step h r)
    simpa [List.append_assoc] using this

theorem bestInv_bestMap (lists : List (List VectorSearchResult)) :
    BestInv (bestMap lists) lists.flatten := by
  have step : ∀ (ls : List (List VectorSearchResult)) (m : List (Int × VectorSearchResult))
      (s : List VectorSearchResult), BestInv m s →
        BestInv (ls.foldl updateBest m) (s ++ ls.flatten) := by
    intro ls
    induction ls with
    | nil =>
      intro m s h
      simpa using h
    | cons l ls ih =>
      intro m s h
      rw [List.foldl_cons]
      have := ih _ _ (bestInv_list l h)
      simpa [List.append_assoc] using this
  simpa using step lists [] [] bestInv_empty

/-! ### Rank form of the per-list contribution -/

/-- RRF contribution of a rank lookup at a 0-based offset. -/
def rankContrib (k : ℚ) (idx : Nat) : Option Nat → ℚ
  | some rk => 1 / (k + ((idx : ℚ) + (rk : ℚ)))
  | none => 0

theorem listContrib_rank (k : ℚ) (c : Int) :
    ∀ {l : List VectorSearchResult}, (l.map VectorSearchResult.chunk_id).Nodup →
      ∀ idx, listContrib k c l idx = rankContrib k idx (rankOf c l) := by
  intro l
  induction l with
  | nil =>
    intro _ idx
    simp [listContrib, rankOf, rankContrib]
  | cons r rest ih =>
    intro h idx
    rw [List.map_cons] at h
    have hnd := List.nodup_cons.1 h
    by_cases hr : r.chunk_id = c
    · have hcnot : c ∉ rest.map VectorSearchResult.chunk_id := by
        rw [← hr]
        exact hnd.1
      rw [listContrib, rankOf, if_pos hr, if_pos hr,
        listContrib_of_not_mem k c hcnot (idx + 1)]
      simp [rankContrib]
    · rw [listContrib, rankOf, if_neg hr, if_neg hr, ih hnd.2 (idx + 1)]
      cases hrk : rankOf c rest with
      | none => simp [rankContrib]
      | some rk =>
        rw [show (some rk).map (· + 1) = some (rk + 1) from rfl]
        simp only [rankContrib]
        push_cast
        ring_nf

theorem fusedScore_eq_spec (lists : List (List VectorSearchResult)) (k : ℚ) (c : Int)
    (hnd : ∀ l ∈ lists, (l.map VectorSearchResult.chunk_id).Nodup) :
    fusedScore lists k c = (lists.map (fun l => specListContrib k c l)).sum := by
  unfold fusedScore
  congr 1
  apply List.map_congr_left
  intro l hl
  rw [listContrib_rank k c (hnd l hl) 0]
  cases hr : rankOf c l with
  | none => simp [rankContrib, specListContrib, hr]
  | some rk => simp [rankContrib, specListContrib, hr]

theorem mem_of_rankOf_some {c : Int} {l : List VectorSearchResult} {rk : Nat}
    (h : rankOf c l = some rk) : c ∈ l.map VectorSearchResult.chunk_id := by
  induction l generalizing rk with
  | nil => simp [rankOf] at h
  | cons r rest ih =>
    by_cases hr : r.chunk_id = c
    · simp [hr]
    · rw [rankOf, if_neg hr] at h
      cases hrk : rankOf c rest with
      | none =>
        rw [hrk] at h
        simp at h
      | some rk' =>
        simp only [List.map_cons, List.mem_cons]
        exact Or.inr (ih hrk)

/-- Every output element of _rrf_merge is the best-instance lookup of a key
of the fused-score dict. -/
theorem mem_rrf_merge {lists : List (List VectorSearchResult)} {k : ℚ} {limit : Nat}
    {res : VectorSearchResult} (h : res ∈ rrf_merge lists k limit) :
    ∃ p ∈ fusedScoresMap lists k, res = (alistGet p.1 (bestMap lists)).getD default := by
  simp only [rrf_merge] at h
  obtain ⟨t, ht, rfl⟩ := List.mem_map.1 h
  have h1 := List.mem_of_mem_take ht
  have h2 := (List.perm_insertionSort scoreGE _).subset h1
  obtain ⟨p, hp, rfl⟩ := List.mem_map.1 h2
  exact ⟨p, hp, rfl⟩

/-- A chunk id occurring in some result list has a best-instance entry, and
that entry is an occurrence of the id whose raw score dominates every
occurrence. -/
theorem best_lookup_spec (lists : List (List VectorSearchResult)) {c : Int}
    (h : ∃ l ∈ lists, c ∈ l.map VectorSearchResult.chunk_id) :
    ∃ b, alistGet c (bestMap lists) = some b ∧ b.chunk_id = c ∧ b ∈ lists.flatten ∧
      ∀ r ∈ lists.flatten, r.chunk_id = c → r.score ≤ b.score := by
  obtain ⟨l, hl, hc⟩ := h
  obtain ⟨r0, hr0, hr0id⟩ := List.mem_map.1 hc
  obtain ⟨inv1, inv2⟩ := bestInv_bestMap lists
  cases hb : alistGet c (bestMap lists) with
  | none => exact absurd hr0id (inv2 c hb r0 (List.mem_flatten.2 ⟨l, hl, hr0⟩))
  | some b =>
    obtain ⟨h1, h2, h3⟩ := inv1 c b hb
    exact ⟨b, rfl, h1, h2, h3⟩

/-- Every fused entry (cid, fused score, carried instance) is coherent: the
carried instance bears the entry key as chunk id and the held score is the
RRF fused score of that key. -/
theorem fused_entry_spec (lists : List (List VectorSearchResult)) (k : ℚ) :
    ∀ t ∈ (fusedScoresMap lists k).map
        (fun p => (p.1, p.2, (alistGet p.1 (bestMap lists)).getD default)),
      t.2.2.chunk_id = t.1 ∧ t.2.1 = fusedScore lists k t.1 := by
  intro t ht
  obtain ⟨p, hp, rfl⟩ := List.mem_map.1 ht
  have hkey : (alistGet p.1 (fusedScoresMap lists k)).isSome = true :=
    (mem_keys_iff_isSome _ _).1 (List.mem_map.2 ⟨p, hp, rfl⟩)
  constructor
  · rcases (isSome_scores_foldl k p.1 lists []).1 hkey with hex | habs
    · obtain ⟨b, hb, hbid, _, _⟩ := best_lookup_spec lists hex
      simp [hb, hbid]
    · simp [alistGet] at habs
  · have hget : alistGet p.1 (fusedScoresMap lists k) = some p.2 :=
      mem_alist_get (nodup_keys_fusedScoresMap lists k) hp
    rw [alistGet_fusedScoresMap] at hget
    by_cases hex : ∃ l ∈ lists, p.1 ∈ l.map VectorSearchResult.chunk_id
    · rw [if_pos hex] at hget
      exact (Option.some_inj.1 hget).symm
    · rw [if_neg hex] at hget
      cases hget

/-- C1: For every list of per-variant result lists without duplicate chunk
ids inside a list, the fused score held for a chunk id is the sum over the
lists of 1/(k + rank) at its 1-based rank there (0 for lists missing it); a
chunk at rank 1 in every one of the N lists has fused score exactly
N/(k + 1); and every emitted instance is an occurrence of its chunk id whose
raw similarity score dominates all occurrences of that id. -/
theorem rrf_fused_score_spec (lists : List (List VectorSearchResult)) (k : ℚ)
    (limit : Nat) (c : Int)
    (hnd : ∀ l ∈ lists, (l.map VectorSearchResult.chunk_id).Nodup) :
    ((∃ l ∈ lists, c ∈ l.map VectorSearchResult.chunk_id) →
        alistGet c (fusedScoresMap lists k) =
          some ((lists.map (fun l => specListContrib k c l)).sum))
    ∧ ((∀ l ∈ lists, rankOf c l = some 1) → lists ≠ [] →
        alistGet c (fusedScoresMap lists k) = some ((lists.length : ℚ) / (k + 1)))
    ∧ (∀ res ∈ rrf_merge lists k limit, res ∈ lists.flatten ∧
        ∀ r ∈ lists.flatten, r.chunk_id = res.chunk_id → r.score ≤ res.score) := by
  refine ⟨?_, ?_, ?_⟩
  · intro hex
    rw [alistGet_fusedScoresMap, if_pos hex, fusedScore_eq_spec lists k c hnd]
  · intro hall hne
    obtain ⟨l0, hl0⟩ := List.exists_mem_of_ne_nil lists hne
    have hex : ∃ l ∈ lists, c ∈ l.map VectorSearchResult.chunk_id :=
      ⟨l0, hl0, mem_of_rankOf_some (hall l0 hl0)⟩
    rw [alistGet_fusedScoresMap, if_pos hex, fusedScore_eq_spec lists k c hnd]
    have hconst : lists.map (fun l => specListContrib k c l) =
        lists.map (fun _ => 1 / (k + 1)) :=
      List.map_congr_left (fun l hl => by simp [specListContrib, hall l hl])
    rw [hconst]
    simp [List.map_const', List.sum_replicate, nsmul_eq_mul, div_eq_mul_inv]
  · intro res hres
    obtain ⟨p, hp, rfl⟩ := mem_rrf_merge hres
    have hkey : (alistGet p.1 (fusedScoresMap lists k)).isSome = true :=
      (mem_keys_iff_isSome _ _).1 (List.mem_map.2 ⟨p, hp, rfl⟩)
    rcases (isSome_scores_foldl k p.1 lists []).1 hkey with hex | habs
    · obtain ⟨b, hb, hbid, hbmem, hbmax⟩ := best_lookup_spec lists hex
      rw [hb]
      simp only [Option.getD_some]
      exact ⟨hbmem, fun r hr hid => hbmax r hr (hid.trans hbid)⟩
    · simp [alistGet] at habs

/-- C1 witness: two variant lists both ranking chunk 7 first give fused
score 2/61 at k = 60. -/
theorem rrf_fused_score_spec_witness :
    alistGet 7 (fusedScoresMap [[⟨7, 1/2, "a"⟩], [⟨7, 3/4, "b"⟩]] 60) = some (2 / 61) := by
  have h := (rrf_fused_score_spec [[⟨7, 1/2, "a"⟩], [⟨7, 3/4, "b"⟩]] 60 8 7
    (by decide)).2.1 (by decide) (by decide)
  rw [h]
  norm_num

/-- C4: the fusion output contains no duplicate chunk ids, has length at
most the truncation limit, and is ordered by non-increasing fused score. -/
theorem rrf_merge_output_spec (lists : List (List VectorSearchResult)) (k : ℚ)
    (limit : Nat) :
    ((rrf_merge lists k limit).map VectorSearchResult.chunk_id).Nodup
    ∧ (rrf_merge lists k limit).length ≤ limit
    ∧ (rrf_merge lists k limit).Pairwise
        (fun a b => fusedScore lists k b.chunk_id ≤ fusedScore lists k a.chunk_id) := by
  have hentry := fused_entry_spec lists k
  refine ⟨?_, ?_, ?_⟩
  · rw [show rrf_merge lists k limit =
      ((List.insertionSort scoreGE ((fusedScoresMap lists k).map
        (fun p => (p.1, p.2, (alistGet p.1 (bestMap lists)).getD default)))).take limit).map
        (fun t => t.2.2) from rfl]
    rw [List.map_map]
    have hcongr : ∀ t ∈ (List.insertionSort scoreGE ((fusedScoresMap lists k).map
        (fun p => (p.1, p.2, (alistGet p.1 (bestMap lists)).getD default)))).take limit,
        (VectorSearchResult.chunk_id ∘ fun t => t.2.2) t = t.1 := by
      intro t ht
      have h1 := List.mem_of_mem_take ht
      have h2 := (List.perm_insertionSort scoreGE _).subset h1
      exact (hentry t h2).1
    rw [List.map_congr_left hcongr]
    have hsub : List.Sublist
        (((List.insertionSort scoreGE ((fusedScoresMap lists k).map
          (fun p => (p.1, p.2, (alistGet p.1 (bestMap lists)).getD default)))).take limit).map
            (fun t : Int × ℚ × VectorSearchResult => t.1))
        ((List.insertionSort scoreGE ((fusedScoresMap lists k).map
          (fun p => (p.1, p.2, (alistGet p.1 (bestMap lists)).getD default)))).map
            (fun t : Int × ℚ × VectorSearchResult => t.1)) :=
      List.Sublist.map _ (List.take_sublist _ _)
    refine List.Nodup.sublist hsub ?_
    have hperm := (List.perm_insertionSort scoreGE ((fusedScoresMap lists k).map
      (fun p => (p.1, p.2, (alistGet p.1 (bestMap lists)).getD default)))).map
        (fun t : Int × ℚ × VectorSearchResult => t.1)
    refine hperm.nodup_iff.2 ?_
    rw [List.map_map]
    have : ((fusedScoresMap lists k).map
        ((fun t : Int × ℚ × VectorSearchResult => t.1) ∘
          (fun p => (p.1, p.2, (alistGet p.1 (bestMap lists)).getD default)))) =
        alistKeys (fusedScoresMap lists k) := by
      simp [alistKeys]
    rw [this]
    exact nodup_keys_fusedScoresMap lists k
  · rw [show rrf_merge lists k limit =
      ((List.insertionSort scoreGE ((fusedScoresMap lists k).map
        (fun p => (p.1, p.2, (alistGet p.1 (bestMap lists)).getD default)))).take limit).map
        (fun t => t.2.2) from rfl]
    rw [List.length_map]
    exact (List.length_take_le _ _)
  · rw [show rrf_merge lists k limit =
      ((List.insertionSort scoreGE ((fusedScoresMap lists k).map
        (fun p => (p.1, p.2, (alistGet p.1 (bestMap lists)).getD default)))).take limit).map
        (fun t => t.2.2) from rfl]
    rw [List.pairwise_map]
    have hsorted : (List.insertionSort scoreGE ((fusedScoresMap lists k).map
        (fun p => (p.1, p.2, (alistGet p.1 (bestMap lists)).getD default)))).Pairwise scoreGE :=
      List.sorted_insertionSort scoreGE _
    have htake : ((List.insertionSort scoreGE ((fusedScoresMap lists k).map
        (fun p => (p.1, p.2, (alistGet p.1 (bestMap lists)).getD default)))).take
          limit).Pairwise scoreGE :=
      hsorted.sublist (List.take_sublist _ _)
    refine htake.imp_of_mem ?_
    intro a b ha hb hab
    have ha' := hentry a ((List.perm_insertionSort scoreGE _).subset (List.mem_of_mem_take ha))
    have hb' := hentry b ((List.perm_insertionSort scoreGE _).subset (List.mem_of_mem_take hb))
    rw [ha'.1, hb'.1, ← ha'.2, ← hb'.2]
    exact hab

/-! ### Scenario classification -/

/-- C5: the rule guess is a fixed priority cascade: non-empty selected ids
give scenario 2 regardless of the query; otherwise a search keyword
contained in the lower-cased query gives scenario 1; otherwise empty history
gives scenario 3; otherwise scenario 4. -/
theorem rule_guess_cascade (query : String) (history : List HistoryTurn)
    (selected_ids : Option (List Int)) :
    (selectedTruthy selected_ids = true →
        rule_guess_scenario query history selected_ids = 2)
    ∧ (selectedTruthy selected_ids = false →
        (∃ kw ∈ search_keywords, strHasSub (pyLower query) kw = true) →
        rule_guess_scenario query history selected_ids = 1)
    ∧ (selectedTruthy selected_ids = false →
        (∀ kw ∈ search_keywords, strHasSub (pyLower query) kw = false) →
        history = [] → rule_guess_scenario query history selected_ids = 3)
    ∧ (selectedTruthy selected_ids = false →
        (∀ kw ∈ search_keywords, strHasSub (pyLower query) kw = false) →
        history ≠ [] → rule_guess_scenario query history selected_ids = 4) := by
  refine ⟨?_, ?_, ?_, ?_⟩
  · intro h1
    simp [rule_guess_scenario, h1]
  · intro h1 hex
    have hany : search_keywords.any (fun kw => strHasSub (pyLower query) kw) = true :=
      List.any_eq_true.2 hex
    simp [rule_guess_scenario, h1, hany]
  · intro h1 hall hh
    have hany : search_keywords.any (fun kw => strHasSub (pyLower query) kw) = false := by
      rw [List.any_eq_false]
      intro kw hkw
      simp [hall kw hkw]
    simp [rule_guess_scenario, h1, hany, hh]
  · intro h1 hall hh
    have hany : search_keywords.any (fun kw => strHasSub (pyLower query) kw) = false := by
      rw [List.any_eq_false]
      intro kw hkw
      simp [hall kw hkw]
    have hie : history.isEmpty = false := by
      cases history with
      | nil => exact absurd rfl hh
      | cons a as => rfl
    simp [rule_guess_scenario, h1, hany, hie]

/-- C5 witness: the four cascade branches at concrete inputs. -/
theorem rule_guess_cascade_witness :
    rule_guess_scenario "найди договор" [] (some [1]) = 2
    ∧ rule_guess_scenario "НАЙДИ договор" [] none = 1
    ∧ rule_guess_scenario "привет" [] none = 3
    ∧ rule_guess_scenario "привет" [⟨"user", "обычный вопрос"⟩] none = 4 :=
  ⟨(rule_guess_cascade "найди договор" [] (some [1])).1 (by decide),
    (rule_guess_cascade "НАЙДИ договор" [] none).2.1 (by decide)
      ⟨"найди", by decide, by decide⟩,
    (rule_guess_cascade "привет" [] none).2.2.1 (by decide) (by decide) rfl,
    (rule_guess_cascade "привет" [⟨"user", "обычный вопрос"⟩] none).2.2.2 (by decide)
      (by decide) (by decide)⟩

/-- C2 counterexample: when the orchestration chat call itself raises, the
exception propagates out of the classification step instead of yielding the
rule-fallback decision, because the call stands before the try block. -/
theorem choose_scenario_call_failure_raises :
    choose_scenario "вопрос" [] none (Except.error ()) = Except.error AgentErr.other
    ∧ choose_scenario "вопрос" [] none (Except.error ()) ≠
        Except.ok (fallbackDecision (rule_guess_scenario "вопрос" [] none)) :=
  ⟨rfl, fun h => Except.noConfusion h⟩

/-- C2 amended: when the orchestration call returns but its output cannot be
parsed, classification returns the decision built entirely from the rule
guess computed from the same inputs: confidence 0, reason rule fallback, no
clarifications, no expansion override, without raising. A failure of the
call itself, by contrast, propagates. -/
theorem choose_scenario_parse_fallback (query : String) (history : List HistoryTurn)
    (selected_ids : Option (List Int)) :
    choose_scenario query history selected_ids (Except.ok none) =
      Except.ok ⟨rule_guess_scenario query history selected_ids, 0, "rule fallback",
        false, [], none⟩ := rfl

/-- C7 counterexample: when the expansion chat call itself raises, the
exception propagates out of the expansion step instead of yielding the empty
expansion, because the call stands before the try block. -/
theorem expand_query_call_failure_raises :
    expand_query (Except.error ()) = Except.error AgentErr.other
    ∧ expand_query (Except.error ()) ≠
        Except.ok (([] : List String), ([] : List String), "") :=
  ⟨rfl, fun h => Except.noConfusion h⟩

/-- Environment used to witness the amended expansion claim. -/
def envC7 : AgentEnv where
  history := []
  classifyResp := Except.ok none
  expandResp := Except.ok none
  search := fun _ _ _ => Except.ok []
  loadDocs := fun _ => []
  answerFull := fun _ => Except.ok "полный"
  answerChunks := fun _ => Except.ok "чанки"
  answerGeneral := Except.ok "общий"
  clarify := fun _ => Except.ok "уточнение"

/-- C7 amended: when the expansion output cannot be parsed, expansion yields
exactly (empty refinements, empty subqueries, empty notes) without raising,
and the fused search then proceeds with the original query as the only
variant. A failure of the expansion call itself, by contrast, propagates. -/
theorem expand_query_parse_fallback (cfg : AgentConfig) (env : AgentEnv) (query : String)
    (document_ids : Option (List Int))
    (hresp : env.expandResp = Except.ok none)
    (hq : (query != "" && pyStrip query != "") = true) :
    expand_query env.expandResp = Except.ok (([] : List String), ([] : List String), "")
    ∧ (search_with_expansion cfg env query document_ids).map Prod.fst =
        (runSearches env.search [query] (max 2 cfg.top_k) document_ids).map
          (fun rs => rrf_merge rs cfg.rrf_k cfg.top_k) := by
  constructor
  · rw [hresp]
    rfl
  · cases hrs : runSearches env.search [query] (max 2 cfg.top_k) document_ids with
    | error e =>
      simp [search_with_expansion, hresp, expand_query, List.filter_cons, hq,
        Nat.add_sub_cancel, hrs, Except.map]
    | ok rs =>
      simp [search_with_expansion, hresp, expand_query, List.filter_cons, hq,
        Nat.add_sub_cancel, hrs, Except.map]

/-- C7 witness: the amended claim at a concrete environment and query. -/
theorem expand_query_parse_fallback_witness :
    expand_query envC7.expandResp = Except.ok (([] : List String), ([] : List String), "")
    ∧ (search_with_expansion defaultConfig envC7 "вопрос" none).map Prod.fst =
        (runSearches envC7.search ["вопрос"] (max 2 defaultConfig.top_k) none).map
          (fun rs => rrf_merge rs defaultConfig.rrf_k defaultConfig.top_k) :=
  expand_query_parse_fallback defaultConfig envC7 "вопрос" none rfl (by decide)

/-! ### Retrieval with expansion -/

/-- The Nat expression max 2 ((t + n - 1) / n) computes the per-variant
retrieval limit max(2, ceil(t / n)) of the specification. -/
theorem ceilDiv_formula (t n : Nat) (hn : n ≠ 0) :
    (((t + n - 1) / n : Nat) : ℤ) = ⌈(t : ℚ) / (n : ℚ)⌉ := by
  have hn0 : 0 < n := Nat.pos_of_ne_zero hn
  rcases Nat.eq_zero_or_pos t with rfl | ht
  · rw [Nat.div_eq_of_lt (by omega)]
    simp
  · set q := (t + n - 1) / n with hq
    have hnq : (0 : ℚ) < (n : ℚ) := by exact_mod_cast hn0
    have hdm : n * q + (t + n - 1) % n = t + n - 1 := Nat.div_add_mod (t + n - 1) n
    have hrlt : (t + n - 1) % n < n := Nat.mod_lt _ hn0
    have h1 : t ≤ n * q := by omega
    have h2 : n * q < t + n := by omega
    symm
    rw [Int.ceil_eq_iff]
    constructor
    · rw [lt_div_iff₀ hnq]
      push_cast
      have h2q : (n : ℚ) * (q : ℚ) < (t : ℚ) + (n : ℚ) := by exact_mod_cast h2
      nlinarith [h2q]
    · rw [div_le_iff₀ hnq]
      push_cast
      have h1q : (t : ℚ) ≤ (n : ℚ) * (q : ℚ) := by exact_mod_cast h1
      nlinarith [h1q]

/-- C9: the expansion set is [query] ++ refinements ++ subqueries with blank
variants dropped; when it is non-empty the fused search issues one call per
variant, each with limit max(2, ceil(top_k / number of variants)); when it
is empty the fused search degrades to one plain call and reports strategy
"plain" in its debug mapping. -/
theorem search_with_expansion_shape (cfg : AgentConfig) (env : AgentEnv) (query : String)
    (document_ids : Option (List Int)) (p : ExpPayload)
    (hresp : env.expandResp = Except.ok (some p)) :
    (∀ e, e ∈ ([query] ++ p.refinements ++ p.subqueries).filter
          (fun e => e != "" && pyStrip e != "") ↔
        (e ∈ [query] ++ p.refinements ++ p.subqueries ∧ e ≠ "" ∧ pyStrip e ≠ ""))
    ∧ (∀ n : Nat, n ≠ 0 →
        ((max 2 ((cfg.top_k + n - 1) / n) : Nat) : ℤ) =
          max 2 ⌈(cfg.top_k : ℚ) / (n : ℚ)⌉)
    ∧ (([query] ++ p.refinements ++ p.subqueries).filter
          (fun e => e != "" && pyStrip e != "") ≠ [] →
        (search_with_expansion cfg env query document_ids).map Prod.fst =
          (runSearches env.search
            (([query] ++ p.refinements ++ p.subqueries).filter
              (fun e => e != "" && pyStrip e != ""))
            (max 2 ((cfg.top_k + (([query] ++ p.refinements ++ p.subqueries).filter
                (fun e => e != "" && pyStrip e != "")).length - 1) /
              (([query] ++ p.refinements ++ p.subqueries).filter
                (fun e => e != "" && pyStrip e != "")).length))
            document_ids).map (fun rs => rrf_merge rs cfg.rrf_k cfg.top_k))
    ∧ (([query] ++ p.refinements ++ p.subqueries).filter
          (fun e => e != "" && pyStrip e != "") = [] →
        search_with_expansion cfg env query document_ids =
          (search_chunks env cfg query document_ids).map
            (fun plain => (plain, [("expansions", DebugVal.strs []),
              ("strategy", DebugVal.str "plain")]))) := by
  refine ⟨?_, ?_, ?_, ?_⟩
  · intro e
    rw [List.mem_filter]
    simp [and_assoc]
  · intro n hn
    rw [Nat.cast_max, ceilDiv_formula cfg.top_k n hn]
    simp
  · intro hne
    cases hfil : ([query] ++ p.refinements ++ p.subqueries).filter
        (fun e => e != "" && pyStrip e != "") with
    | nil => exact absurd hfil hne
    | cons a as =>
      simp only [List.cons_append, List.nil_append, List.append_assoc] at hfil
      cases hrs : runSearches env.search (a :: as)
          (max 2 ((cfg.top_k + (a :: as).length - 1) / (a :: as).length)) document_ids with
      | error e =>
        simp only [List.length_cons] at hrs
        rw [show cfg.top_k + (as.length + 1) - 1 = cfg.top_k + as.length from by omega] at hrs
        simp [search_with_expansion, hresp, expand_query, hfil, hrs, Except.map]
      | ok rs =>
        simp only [List.length_cons] at hrs
        rw [show cfg.top_k + (as.length + 1) - 1 = cfg.top_k + as.length from by omega] at hrs
        simp [search_with_expansion, hresp, expand_query, hfil, hrs, Except.map]
  · intro hfil
    simp only [List.cons_append, List.nil_append, List.append_assoc] at hfil
    cases hsc : search_chunks env cfg query document_ids with
    | error e =>
      simp [search_with_expansion, hresp, expand_query, hfil, hsc, Except.map]
    | ok plain =>
      simp [search_with_expansion, hresp, expand_query, hfil, hsc, Except.map]

/-- Environment used to witness the expansion-shape claim. -/
def envC9 : AgentEnv where
  history := []
  classifyResp := Except.ok none
  expandResp := Except.ok (some ⟨["уточнение запроса", "  "], ["подзапрос"], "заметки"⟩)
  search := fun _ _ _ => Except.ok []
  loadDocs := fun _ => []
  answerFull := fun _ => Except.ok "полный"
  answerChunks := fun _ => Except.ok "чанки"
  answerGeneral := Except.ok "общий"
  clarify := fun _ => Except.ok "уточнение"

/-- C9 witness: the per-variant limit formula at 3 variants and the fused
call structure at a concrete environment whose expansion payload contains a
blank variant to be dropped. -/
theorem search_with_expansion_shape_witness :
    ((max 2 ((defaultConfig.top_k + 3 - 1) / 3) : Nat) : ℤ) =
      max 2 ⌈(defaultConfig.top_k : ℚ) / (3 : ℚ)⌉
    ∧ (search_with_expansion defaultConfig envC9 "вопрос" none).map Prod.fst =
        (runSearches envC9.search
          ((["вопрос"] ++ ["уточнение запроса", "  "] ++ ["подзапрос"]).filter
            (fun e => e != "" && pyStrip e != ""))
          (max 2 ((defaultConfig.top_k + ((["вопрос"] ++ ["уточнение запроса", "  "] ++
              ["подзапрос"]).filter (fun e => e != "" && pyStrip e != "")).length - 1) /
            ((["вопрос"] ++ ["уточнение запроса", "  "] ++ ["подзапрос"]).filter
              (fun e => e != "" && pyStrip e != "")).length))
          none).map (fun rs => rrf_merge rs defaultConfig.rrf_k defaultConfig.top_k) := by
  have h := search_with_expansion_shape defaultConfig envC9 "вопрос" none
    ⟨["уточнение запроса", "  "], ["подзапрос"], "заметки"⟩ rfl
  exact ⟨h.2.1 3 (by decide), h.2.2.1 (by decide)⟩

/-! ### Failure propagation through run -/

theorem search_chunks_fails (env : AgentEnv) (cfg : AgentConfig) (query : String)
    (ids : Option (List Int)) (h : env.search query cfg.top_k ids = Except.error ()) :
    search_chunks env cfg query ids = Except.error AgentErr.vectorSearch := by
  simp [search_chunks, h]

theorem runSearches_abort
    (search : String → Nat → Option (List Int) → Except Unit (List VectorSearchResult)) :
    ∀ (qs : List String) (limit : Nat) (ids : Option (List Int)),
      (∃ q ∈ qs, search q limit ids = Except.error ()) →
      runSearches search qs limit ids = Except.error AgentErr.vectorSearch := by
  intro qs
  induction qs with
  | nil =>
    intro limit ids h
    obtain ⟨q, hq, _⟩ := h
    cases hq
  | cons q0 rest ih =>
    intro limit ids h
    rw [runSearches]
    cases hs0 : search q0 limit ids with
    | error e => rfl
    | ok r =>
      obtain ⟨q, hq, hfail⟩ := h
      rcases List.mem_cons.1 hq with rfl | hqrest
      · rw [hs0] at hfail
        cases hfail
      · rw [ih limit ids ⟨q, hqrest, hfail⟩]

theorem search_with_expansion_fails (cfg : AgentConfig) (env : AgentEnv) (query : String)
    (ids : Option (List Int)) (p : Option ExpPayload)
    (hexp : env.expandResp = Except.ok p)
    (hsearch : ∀ q limit ids', env.search q limit ids' = Except.error ()) :
    search_with_expansion cfg env query ids = Except.error AgentErr.vectorSearch := by
  have hplain : search_chunks env cfg query ids = Except.error AgentErr.vectorSearch :=
    search_chunks_fails env cfg query ids (hsearch _ _ _)
  cases p with
  | none =>
    simp only [search_with_expansion, hexp, expand_query]
    split
    · rw [hplain]
    · next h =>
      rw [runSearches_abort env.search _ _ _ ?_]
      cases hfil : ([query] ++ [] ++ []).filter (fun e => e != "" && pyStrip e != "") with
      | nil =>
        simp only [List.nil_append, List.append_nil] at hfil h
        rw [hfil] at h
        exact absurd rfl h
      | cons a as =>
        exact ⟨a, List.mem_cons_self a as, hsearch _ _ _⟩
  | some pay =>
    simp only [search_with_expansion, hexp, expand_query]
    split
    · rw [hplain]
    · next h =>
      rw [runSearches_abort env.search _ _ _ ?_]
      cases hfil : ([query] ++ pay.refinements ++ pay.subqueries).filter
          (fun e => e != "" && pyStrip e != "") with
      | nil =>
        simp only [List.cons_append, List.nil_append, List.append_assoc] at hfil h
        rw [hfil] at h
        exact absurd rfl h
      | cons a as =>
        exact ⟨a, List.mem_cons_self a as, hsearch _ _ _⟩

theorem retrieval_branch_fails (cfg : AgentConfig) (env : AgentEnv) (query : String)
    (ids : Option (List Int)) (use_qx : Bool) (p : Option ExpPayload)
    (hexp : env.expandResp = Except.ok p)
    (hsearch : ∀ q limit ids', env.search q limit ids' = Except.error ()) :
    retrieval_branch cfg env query ids use_qx = Except.error AgentErr.vectorSearch := by
  cases use_qx with
  | false =>
    simp [retrieval_branch, search_chunks_fails env cfg query ids (hsearch _ _ _)]
  | true =>
    simp [retrieval_branch, search_with_expansion_fails cfg env query ids p hexp hsearch,
      Except.map]

/-- C3: a single raising variant call aborts the whole per-variant retrieval
loop with the VectorSearchError kind, and a run on a retrieval path whose
vector-search collaborator raises recovers by answering with the fixed
unavailable-service message and no used chunks, without the error leaving
run. -/
theorem run_vector_search_recovery (cfg : AgentConfig) (env : AgentEnv) (query : String)
    (sel : Option (List Int)) (d : ScenarioDecision) (p : Option ExpPayload)
    (hdec : choose_scenario query env.history sel env.classifyResp = Except.ok d)
    (hexp : env.expandResp = Except.ok p)
    (hsearch : ∀ q limit ids, env.search q limit ids = Except.error ())
    (hpath : d.scenario = 1 ∨ (d.scenario = 2 ∧ selectedTruthy sel = true ∧
      cfg.max_context_chars < total_length (env.loadDocs (sel.getD [])))) :
    (∀ (search' : String → Nat → Option (List Int) → Except Unit (List VectorSearchResult))
        (qs : List String) (limit : Nat) (ids : Option (List Int)),
        (∃ q ∈ qs, search' q limit ids = Except.error ()) →
        runSearches search' qs limit ids = Except.error AgentErr.vectorSearch)
    ∧ run cfg env query sel =
        Except.ok ⟨vector_search_unavailable_message, [], d.scenario⟩ := by
  refine ⟨fun search' qs limit ids h => runSearches_abort search' qs limit ids h, ?_⟩
  have hrwr : ∀ (use_qx : Bool) (ids' : Option (List Int)),
      retrieval_with_recovery cfg env query ids' use_qx d.scenario =
        Except.ok ⟨vector_search_unavailable_message, [], d.scenario⟩ := by
    intro use_qx ids'
    rw [retrieval_with_recovery,
      retrieval_branch_fails cfg env query ids' use_qx p hexp hsearch]
  rcases hpath with hs1 | ⟨hs2, htr, hbud⟩
  · have hns2 : ¬(d.scenario = 2 ∧ selectedTruthy sel = true) := by
      rintro ⟨h2, _⟩
      rw [hs1] at h2
      exact absurd h2 (by decide)
    simp only [run, hdec]
    rw [if_neg hns2, if_pos hs1]
    exact hrwr _ _
  · simp only [run, hdec]
    rw [if_pos ⟨hs2, htr⟩, if_neg (not_le.2 hbud)]
    exact hrwr _ _

/-- Environment used to witness the retrieval-failure recovery claim. -/
def envC3 : AgentEnv where
  history := []
  classifyResp := Except.ok none
  expandResp := Except.ok none
  search := fun _ _ _ => Except.error ()
  loadDocs := fun _ => []
  answerFull := fun _ => Except.ok "полный"
  answerChunks := fun _ => Except.ok "чанки"
  answerGeneral := Except.ok "общий"
  clarify := fun _ => Except.ok "уточнение"

/-- C3 witness: a run whose every vector-search call raises answers with the
fixed unavailable message and no chunks. -/
theorem run_vector_search_recovery_witness :
    run defaultConfig envC3 "найди договор" none =
      Except.ok ⟨vector_search_unavailable_message, [], 1⟩ :=
  (run_vector_search_recovery defaultConfig envC3 "найди договор" none
    (fallbackDecision 1) none rfl rfl (fun _ _ _ => rfl) (Or.inl rfl)).2

/-- C6: scenario 2 with selected documents: when the summed content length
fits the budget, run answers through the full-context call only, with no
used chunks and independently of the vector-search collaborator; when it
exceeds the budget, run falls back to the retrieval path scoped to the same
selected ids. -/
theorem run_scenario2_budget (cfg : AgentConfig) (env : AgentEnv) (query : String)
    (ids : List Int) (d : ScenarioDecision)
    (hdec : choose_scenario query env.history (some ids) env.classifyResp = Except.ok d)
    (hs : d.scenario = 2) (hne : ids ≠ []) :
    (total_length (env.loadDocs ids) ≤ cfg.max_context_chars →
        run cfg env query (some ids) =
          (match env.answerFull (env.loadDocs ids) with
            | Except.error _ => Except.error AgentErr.other
            | Except.ok answer => Except.ok ⟨answer, [], d.scenario⟩)
        ∧ ∀ s', run cfg { env with search := s' } query (some ids) =
            run cfg env query (some ids))
    ∧ (cfg.max_context_chars < total_length (env.loadDocs ids) →
        run cfg env query (some ids) =
          retrieval_with_recovery cfg env query (some ids)
            (d.use_query_expansion.getD cfg.use_query_expansion) d.scenario) := by
  have htr : selectedTruthy (some ids) = true := by
    simp only [selectedTruthy, decide_eq_true_eq, List.length_pos]
    exact hne
  have main : ∀ (env' : AgentEnv), env'.history = env.history →
      env'.classifyResp = env.classifyResp → env'.loadDocs = env.loadDocs →
      env'.answerFull = env.answerFull →
      total_length (env.loadDocs ids) ≤ cfg.max_context_chars →
      run cfg env' query (some ids) =
        (match env.answerFull (env.loadDocs ids) with
          | Except.error _ => Except.error AgentErr.other
          | Except.ok answer => Except.ok ⟨answer, [], d.scenario⟩) := by
    intro env' hh hc hl ha hbud
    have hdec' : choose_scenario query env'.history (some ids) env'.classifyResp =
        Except.ok d := by
      rw [hh, hc]
      exact hdec
    simp only [run, hdec', Option.getD_some]
    rw [if_pos ⟨hs, htr⟩, hl, if_pos hbud, ha]
  constructor
  · intro hbud
    refine ⟨main env rfl rfl rfl rfl hbud, fun s' => ?_⟩
    rw [main { env with search := s' } rfl rfl rfl rfl hbud, main env rfl rfl rfl rfl hbud]
  · intro hbud
    simp only [run, hdec, Option.getD_some]
    rw [if_pos ⟨hs, htr⟩, if_neg (not_le.2 hbud)]

/-- Environment used to witness the context-budget claim. -/
def envC6 : AgentEnv where
  history := []
  classifyResp := Except.ok none
  expandResp := Except.ok none
  search := fun _ _ _ => Except.ok []
  loadDocs := fun _ => [⟨"текст договора"⟩]
  answerFull := fun _ => Except.ok "полный ответ"
  answerChunks := fun _ => Except.ok "чанки"
  answerGeneral := Except.ok "общий"
  clarify := fun _ => Except.ok "уточнение"

/-- C6 witness: a scenario 2 run whose selected documents fit the budget
answers through the full-context call with no chunks. -/
theorem run_scenario2_budget_witness :
    run defaultConfig envC6 "вопрос" (some [5]) =
      Except.ok ⟨"полный ответ", [], 2⟩ := by
  have h := (run_scenario2_budget defaultConfig envC6 "вопрос" [5]
    (fallbackDecision 2) rfl rfl (by decide)).1 (by decide)
  rw [h.1]
  rfl

/-- C10: a scenario decision outside the values 1, 2 and 4, or equal to 2
without selected ids, drives run to the clarification rendering with the
clarifications of the decision, no used chunks, and no dependence on the
vector-search or document-store collaborators. -/
theorem run_clarify_path (cfg : AgentConfig) (env : AgentEnv) (query : String)
    (sel : Option (List Int)) (d : ScenarioDecision)
    (hdec : choose_scenario query env.history sel env.classifyResp = Except.ok d)
    (h1 : d.scenario ≠ 1) (h4 : d.scenario ≠ 4)
    (h2 : d.scenario ≠ 2 ∨ selectedTruthy sel = false) :
    run cfg env query sel =
      (match env.clarify d.clarifications with
        | Except.error _ => Except.error AgentErr.other
        | Except.ok answer => Except.ok ⟨answer, [], d.scenario⟩)
    ∧ ∀ s' ld, run cfg { env with search := s', loadDocs := ld } query sel =
        run cfg env query sel := by
  have hns2 : ¬(d.scenario = 2 ∧ selectedTruthy sel = true) := by
    rcases h2 with h2 | h2
    · rintro ⟨ha, _⟩
      exact h2 ha
    · rintro ⟨_, hb⟩
      rw [h2] at hb
      cases hb
  have main : ∀ (env' : AgentEnv), env'.history = env.history →
      env'.classifyResp = env.classifyResp → env'.clarify = env.clarify →
      run cfg env' query sel =
        (match env.clarify d.clarifications with
          | Except.error _ => Except.error AgentErr.other
          | Except.ok answer => Except.ok ⟨answer, [], d.scenario⟩) := by
    intro env' hh hc hcl
    have hdec' : choose_scenario query env'.history sel env'.classifyResp =
        Except.ok d := by
      rw [hh, hc]
      exact hdec
    simp only [run, hdec']
    rw [if_neg hns2, if_neg h1, if_neg h4, hcl]
  refine ⟨main env rfl rfl rfl, fun s' ld => ?_⟩
  rw [main { env with search := s', loadDocs := ld } rfl rfl rfl, main env rfl rfl rfl]

/-- Environment used to witness the clarification-path claim. -/
def envC10 : AgentEnv where
  history := []
  classifyResp := Except.ok none
  expandResp := Except.ok none
  search := fun _ _ _ => Except.ok []
  loadDocs := fun _ => []
  answerFull := fun _ => Except.ok "полный"
  answerChunks := fun _ => Except.ok "чанки"
  answerGeneral := Except.ok "общий"
  clarify := fun _ => Except.ok "уточняющие вопросы"

/-- C10 witness: a scenario 3 decision resolves through the clarification
rendering with empty used chunks. -/
theorem run_clarify_path_witness :
    run defaultConfig envC10 "расскажи" none =
      Except.ok ⟨"уточняющие вопросы", [], 3⟩ := by
  have h := (run_clarify_path defaultConfig envC10 "расскажи" none
    (fallbackDecision 3) rfl (by decide) (by decide) (Or.inr rfl)).1
  rw [h]
  rfl

/-- C8: used_chunks of a run result is non-empty only when the decision took
a retrieval path (scenario 1, or scenario 2 with selected ids over budget)
and the retrieval branch succeeded, in which case the result carries exactly
the chunks and answer of that branch. -/
theorem run_used_chunks_invariant (cfg : AgentConfig) (env : AgentEnv) (query : String)
    (sel : Option (List Int)) (r : AgentResult) (d : ScenarioDecision)
    (hdec : choose_scenario query env.history sel env.classifyResp = Except.ok d)
    (hrun : run cfg env query sel = Except.ok r)
    (hne : r.used_chunks ≠ []) :
    r.scenario = d.scenario
    ∧ (d.scenario = 1 ∨ (d.scenario = 2 ∧ selectedTruthy sel = true ∧
        cfg.max_context_chars < total_length (env.loadDocs (sel.getD []))))
    ∧ retrieval_branch cfg env query
        (if d.scenario = 1 then none else some (sel.getD []))
        (d.use_query_expansion.getD cfg.use_query_expansion) =
        Except.ok (r.used_chunks, r.answer) := by
  simp only [run, hdec, Option.getD_some] at hrun
  by_cases hc1 : d.scenario = 2 ∧ selectedTruthy sel = true
  · rw [if_pos hc1] at hrun
    by_cases hbud : total_length (env.loadDocs (sel.getD [])) ≤ cfg.max_context_chars
    · rw [if_pos hbud] at hrun
      cases haf : env.answerFull (env.loadDocs (sel.getD [])) with
      | error e =>
        rw [haf] at hrun
        cases hrun
      | ok a =>
        rw [haf] at hrun
        injection hrun with hr
        subst hr
        simp at hne
    · rw [if_neg hbud, retrieval_with_recovery] at hrun
      cases hrb : retrieval_branch cfg env query (some (sel.getD []))
          (d.use_query_expansion.getD cfg.use_query_expansion) with
      | ok pr =>
        obtain ⟨chunks, ans⟩ := pr
        simp only [hrb] at hrun
        injection hrun with hr
        subst hr
        have hns1 : d.scenario ≠ 1 := by
          rw [hc1.1]
          decide
        refine ⟨rfl, Or.inr ⟨hc1.1, hc1.2, not_le.1 hbud⟩, ?_⟩
        rw [if_neg hns1]
        exact hrb
      | error e =>
        simp only [hrb] at hrun
        cases e with
        | vectorSearch =>
          injection hrun with hr
          subst hr
          simp at hne
        | other => cases hrun
  · rw [if_neg hc1] at hrun
    by_cases hs1 : d.scenario = 1
    · rw [if_pos hs1, retrieval_with_recovery] at hrun
      cases hrb : retrieval_branch cfg env query none
          (d.use_query_expansion.getD cfg.use_query_expansion) with
      | ok pr =>
        obtain ⟨chunks, ans⟩ := pr
        simp only [hrb] at hrun
        injection hrun with hr
        subst hr
        refine ⟨rfl, Or.inl hs1, ?_⟩
        rw [if_pos hs1]
        exact hrb
      | error e =>
        simp only [hrb] at hrun
        cases e with
        | vectorSearch =>
          injection hrun with hr
          subst hr
          simp at hne
        | other => cases hrun
    · rw [if_neg hs1] at hrun
      by_cases hs4 : d.scenario = 4
      · rw [if_pos hs4] at hrun
        cases hag : env.answerGeneral with
        | error e =>
          rw [hag] at hrun
          cases hrun
        | ok a =>
          rw [hag] at hrun
          injection hrun with hr
          subst hr
          simp at hne
      · rw [if_neg hs4] at hrun
        cases hcl : env.clarify d.clarifications with
        | error e =>
          rw [hcl] at hrun
          cases hrun
        | ok a =>
          rw [hcl] at hrun
          injection hrun with hr
          subst hr
          simp at hne

/-- Environment used to witness the used-chunks invariant. -/
def envC8 : AgentEnv where
  history := []
  classifyResp := Except.ok none
  expandResp := Except.ok none
  search := fun _ _ _ => Except.ok [⟨7, 1/2, "p"⟩]
  loadDocs := fun _ => []
  answerFull := fun _ => Except.ok "полный"
  answerChunks := fun _ => Except.ok "ответ"
  answerGeneral := Except.ok "общий"
  clarify := fun _ => Except.ok "уточнение"

/-- C8 witness: a successful scenario 1 retrieval run carries exactly the
chunks and answer of its retrieval branch. -/
theorem run_used_chunks_invariant_witness :
    (⟨"ответ", [⟨7, 1/2, "p"⟩], 1⟩ : AgentResult).scenario = (fallbackDecision 1).scenario
    ∧ ((fallbackDecision 1).scenario = 1 ∨ ((fallbackDecision 1).scenario = 2 ∧
        selectedTruthy none = true ∧ defaultConfig.max_context_chars <
          total_length (envC8.loadDocs ((none : Option (List Int)).getD []))))
    ∧ retrieval_branch defaultConfig envC8 "найди"
        (if (fallbackDecision 1).scenario = 1 then none
         else some ((none : Option (List Int)).getD []))
        ((fallbackDecision 1).use_query_expansion.getD defaultConfig.use_query_expansion) =
        Except.ok ((⟨"ответ", [⟨7, 1/2, "p"⟩], 1⟩ : AgentResult).used_chunks,
          (⟨"ответ", [⟨7, 1/2, "p"⟩], 1⟩ : AgentResult).answer) := by
  have hrun : run defaultConfig envC8 "найди" none =
      Except.ok ⟨"ответ", [⟨7, 1/2, "p"⟩], 1⟩ := by
    simp [run, choose_scenario, rule_guess_scenario, selectedTruthy, search_keywords,
      pyLower, pyLowerChar, strHasSub, charsSub, charsPre, fallbackDecision,
      retrieval_with_recovery, retrieval_branch, search_with_expansion, expand_query,
      pyStrip, pyIsSpace, runSearches, Except.map, rrf_merge, fusedScoresMap, bestMap,
      updateScores, updateBest, updateBestOne, alistGet, alistSet, defaultConfig,
      search_chunks, scoreGE, envC8]
  exact run_used_chunks_invariant defaultConfig envC8 "найди" none _ (fallbackDecision 1)
    rfl hrun (by simp)

end Rag
